import Mathlib

/-!
Verification of the pgedge-vectorizer chunking engine.

Text is modelled as a list of bytes (`List Nat`, each byte < 256 in practice;
the claims' inputs are ASCII).  Each definition is a shallow embedding of the
corresponding C function in `src/tokenizer.c`, `src/chunking.c` or
`src/hybrid_chunking.c`; names follow the source.  C `for`/`while` loops over
offsets become structural recursion (with an explicit fuel argument where the
C loop advances a cursor; theorems prove the fuel used by the wrappers is
sufficient).  Out-of-range reads of the C scans are modelled by `byteAt`,
which yields 0 (the NUL terminator value) outside the string.
-/

namespace PGV

/-- Bytes of an ASCII string literal (used for concrete inputs). -/
def strB (s : String) : List Nat := s.toList.map Char.toNat

/-- Read `text[i]` totally: 0 (NUL) outside the valid range, mirroring that a
C string is NUL-terminated; a negative index is out of range. -/
def byteAt (text : List Nat) (i : Int) : Nat :=
  if 0 ≤ i then text.getD i.toNat 0 else 0

/-! ## tokenizer.c -/

/-- `(*p & 0xC0) != 0x80`: byte starts a UTF-8 codepoint (count_tokens loop). -/
def isUtf8Start (b : Nat) : Bool := !(b &&& 0xC0 == 0x80)

/-- Number of UTF-8 codepoint start bytes, as counted by `count_tokens`. -/
def charCount (text : List Nat) : Nat := (text.filter isUtf8Start).length

/-- `count_tokens` (tokenizer.c): `ceil(char_count / 4)`, 0 for empty input. -/
def count_tokens (text : List Nat) : Nat :=
  if text = [] then 0 else (charCount text + 3) / 4

/-- Scan loop of `get_char_offset_for_tokens`: consume bytes while the number
of codepoint starts seen (`actual`) is below the budget (`estimated`);
returns the byte offset reached. -/
def gcoAux : List Nat → Nat → Nat → Nat
  | [], _, _ => 0
  | b :: rest, budget, actual =>
    if actual < budget then
      1 + gcoAux rest budget (actual + (if isUtf8Start b then 1 else 0))
    else 0

/-- `get_char_offset_for_tokens` (tokenizer.c): byte offset after roughly
`target_tokens * 4` codepoints; 0 for empty text or non-positive target. -/
def get_char_offset_for_tokens (text : List Nat) (target_tokens : Int) : Nat :=
  if text = [] ∨ target_tokens ≤ 0 then 0
  else gcoAux text (4 * target_tokens).toNat 0

/-- The ascending offsets visited by `for (offset = a; ...; offset++)` with
`n` iterations. -/
def rangeFrom (a : Int) : Nat → List Int
  | 0 => []
  | n + 1 => a :: rangeFrom (a + 1) n

/-- Offsets scanned by each tier loop of `find_good_break_point`:
`for (offset = target-50; offset < target+50 && offset < max_offset; offset++)`. -/
def scanOffsets (target maxOff : Int) : List Int :=
  rangeFrom (target - 50) (min (target + 50) maxOff - (target - 50)).toNat

/-- Tier-1 predicate: `offset > 0 && text[offset-1]=='\n' && text[offset]=='\n'`. -/
def isParaBreak (text : List Nat) (o : Int) : Bool :=
  0 < o && byteAt text (o - 1) == 10 && byteAt text o == 10

/-- Tier-2 predicate: `offset > 0`, previous byte in `{'.','?','!'}`, current
byte `' '` or `'\n'`. -/
def isSentenceEnd (text : List Nat) (o : Int) : Bool :=
  0 < o &&
  (byteAt text (o - 1) == 46 || byteAt text (o - 1) == 63 || byteAt text (o - 1) == 33) &&
  (byteAt text o == 32 || byteAt text o == 10)

/-- Tier-3 predicate: current byte `' '` or `'\n'`. -/
def isWordBreak (text : List Nat) (o : Int) : Bool :=
  byteAt text o == 32 || byteAt text o == 10

/-- `find_good_break_point` (tokenizer.c). -/
def find_good_break_point (text : List Nat) (target_offset max_offset : Int) : Int :=
  if max_offset ≤ target_offset then max_offset
  else
    match (scanOffsets target_offset max_offset).find? (isParaBreak text) with
    | some o => o
    | none =>
      match (scanOffsets target_offset max_offset).find? (isSentenceEnd text) with
      | some o => o
      | none =>
        match (scanOffsets target_offset max_offset).find? (isWordBreak text) with
        | some o => o
        | none => if target_offset < max_offset then target_offset else max_offset

/-- Tier-1 matches inside the scanned window. -/
def tier1Matches (text : List Nat) (target maxOff : Int) : List Int :=
  (scanOffsets target maxOff).filter (isParaBreak text)

/-- Tier-2 matches inside the scanned window. -/
def tier2Matches (text : List Nat) (target maxOff : Int) : List Int :=
  (scanOffsets target maxOff).filter (isSentenceEnd text)

/-- Tier-3 matches inside the scanned window. -/
def tier3Matches (text : List Nat) (target maxOff : Int) : List Int :=
  (scanOffsets target maxOff).filter (isWordBreak text)

-- scratch checks
example : strB "ab" = [97, 98] := by decide
example : count_tokens (strB "# Title") = 2 := by decide
example : get_char_offset_for_tokens (strB "abcdefgh") 1 = 4 := by decide
example : find_good_break_point (strB "ab cd") 1 5 = 2 := by decide
example : find_good_break_point (strB "ab cd") 7 5 = 5 := by decide

/-! ### Instrumentation of the reads performed by `find_good_break_point`

`fgbpReads` lists, in order, every index `i` at which the C function
evaluates `text[i]`, following the short-circuit structure of the three
scan loops (a tier stops at its first match and later tiers only run when
the earlier ones found none). -/

/-- Indices read by one tier-1 iteration at `o`:
`offset > 0 && text[offset-1]=='\n' && text[offset]=='\n'`. -/
def readsPara (text : List Nat) (o : Int) : List Int :=
  if 0 < o then (if byteAt text (o - 1) == 10 then [o - 1, o] else [o - 1]) else []

/-- Indices read by one tier-2 iteration at `o`. -/
def readsSentence (text : List Nat) (o : Int) : List Int :=
  if 0 < o then
    (if byteAt text (o - 1) == 46 || byteAt text (o - 1) == 63 || byteAt text (o - 1) == 33
     then [o - 1, o] else [o - 1])
  else []

/-- Indices read by one tier-3 iteration at `o`: `text[offset]`. -/
def readsWord (o : Int) : List Int := [o]

/-- Reads of a scan loop that returns at its first match. -/
def readsUntilMatch (f : Int → List Int) (p : Int → Bool) : List Int → List Int
  | [] => []
  | o :: rest => f o ++ (if p o then [] else readsUntilMatch f p rest)

/-- All indices at which `find_good_break_point text target max` reads `text`. -/
def fgbpReads (text : List Nat) (target maxOff : Int) : List Int :=
  if maxOff ≤ target then []
  else
    let offs := scanOffsets target maxOff
    readsUntilMatch (readsPara text) (isParaBreak text) offs ++
    if (offs.find? (isParaBreak text)).isSome then [] else
    readsUntilMatch (readsSentence text) (isSentenceEnd text) offs ++
    if (offs.find? (isSentenceEnd text)).isSome then [] else
    readsUntilMatch readsWord (isWordBreak text) offs

example : (-49 : Int) ∈ fgbpReads (List.replicate 10 97) 1 10 := by decide

/-! ## chunking.c -/

/-- Chunking strategies (`ChunkStrategy` in pgedge_vectorizer.h). -/
inductive ChunkStrategy where
  | token | semantic | markdown | sentence | recursive | hybrid
deriving DecidableEq, Repr

/-- `ChunkConfig` (pgedge_vectorizer.h); the unused reserved `separators`
field is omitted.  The integer fields are C `int`s. -/
structure ChunkConfig where
  strategy : ChunkStrategy
  chunk_size : Int
  overlap : Int
deriving DecidableEq, Repr

/-- One step of the copy loop of `strip_non_ascii` (chunking.c): an ASCII
byte is copied; a non-ASCII byte appends one space unless the output is
empty or already ends in a space (`j > 0 && result[j-1] != ' '`). -/
def stripStep (res : List Nat) (c : Nat) : List Nat :=
  if c < 128 then res ++ [c]
  else if res ≠ [] ∧ res.getLast? ≠ some 32 then res ++ [32] else res

/-- `strip_non_ascii` (chunking.c). -/
def strip_non_ascii (text : List Nat) : List Nat := text.foldl stripStep []

/-- Whitespace skipped between chunks (`' '`, `'\t'`, `'\n'`, `'\r'`). -/
def isSkipWs (c : Nat) : Bool := c == 32 || c == 9 || c == 10 || c == 13

/-- `while (start < len && ws(text[start])) start++`. -/
def skipWs (text : List Nat) (start : Nat) : Nat :=
  start + ((text.drop start).takeWhile isSkipWs).length

/-- Overlap adjustment loop of `chunk_by_tokens`: from `i`, advance while the
byte of `s` is not `' '`, `'\n'` or `'\t'` and the offset is below `e`. -/
def advanceToWs (s : List Nat) (i e : Nat) : Nat :=
  i + (((s.drop i).take (e - i)).takeWhile (fun c => !(c == 32 || c == 10 || c == 9))).length

/-- The `end_offset` of one iteration of either segmentation loop at offset
`start` (identical code in `chunk_by_tokens`, `split_oversized_chunks` and
`elements_to_chunks_simple`): the token-budget target offset, the break
point found near it, then the `if (end_offset <= 0)` progress guard. -/
def endOffset (text : List Nat) (sizeTokens : Int) (start : Nat) : Nat :=
  let rest := text.drop start
  let target : Nat := get_char_offset_for_tokens rest sizeTokens
  let end0 : Int := find_good_break_point rest (target : Int) ((text.length - start : Nat) : Int)
  if end0 ≤ 0 then (if 0 < target then target else text.length - start) else end0.toNat

/-- One iteration of the segmentation loop of `chunk_by_tokens` at offset
`start`: returns the emitted chunk and the next value of `start_offset`
(after the overlap adjustment and the trailing whitespace skip). -/
def chunkStep (text : List Nat) (cfg : ChunkConfig) (start : Nat) : List Nat × Nat :=
  let endOff := endOffset text cfg.chunk_size start
  let chunkStr := (text.drop start).take endOff
  let ct := count_tokens chunkStr
  let next : Nat :=
    if 0 < cfg.overlap ∧ cfg.overlap < (ct : Int) then
      let ov0 := get_char_offset_for_tokens chunkStr ((ct : Int) - cfg.overlap)
      let ov1 := advanceToWs chunkStr ov0 endOff
      let ov2 := if endOff ≤ ov1 then endOff else ov1
      start + ov2
    else start + endOff
  (chunkStr, skipWs text next)

/-- The `while (start_offset < content_len)` loop of `chunk_by_tokens`,
with explicit fuel (the wrapper passes `text.length`, which suffices by
the progress theorem). -/
def chunkLoop (text : List Nat) (cfg : ChunkConfig) : Nat → Nat → List (List Nat)
  | 0, _ => []
  | fuel + 1, start =>
    if start < text.length then
      let s := chunkStep text cfg start
      s.1 :: chunkLoop text cfg fuel s.2
    else []

/-- `chunk_by_tokens` (chunking.c).  `stripFlag` models the GUC
`pgedge_vectorizer.strip_non_ascii` read by the function. -/
def chunk_by_tokens (stripFlag : Bool) (content : List Nat) (cfg : ChunkConfig) :
    List (List Nat) :=
  if content = [] then []
  else
    let processed := if stripFlag then strip_non_ascii content else content
    if processed = [] then []
    else if (count_tokens processed : Int) ≤ cfg.chunk_size then [processed]
    else chunkLoop processed cfg processed.length 0

example :
    chunk_by_tokens false (strB "Short para.") ⟨.token, 400, 50⟩ = [strB "Short para."] := by
  decide

/-! ## hybrid_chunking.c: markdown detection (`is_likely_markdown`) -/

/-- Scanner state of `is_likely_markdown`: the `at_line_start` flag, one
flag per indicator kind, and the `indicators` counter. -/
structure MDState where
  atLineStart : Bool
  hasHeading : Bool
  hasFence : Bool
  hasList : Bool
  hasBlockquote : Bool
  hasTable : Bool
  hasLink : Bool
  indicators : Nat
deriving DecidableEq, Repr

/-- Initial scanner state. -/
def mdInit : MDState := ⟨true, false, false, false, false, false, false, 0⟩

/-- `while (*pos == ' ' && spaces < 4) pos++` at a line start. -/
def dropSpacesUpTo : Nat → List Nat → List Nat
  | _, [] => []
  | 0, l => l
  | n + 1, c :: rest => if c = 32 then dropSpacesUpTo n rest else c :: rest

/-- Heading test of the detector at a (space-skipped) line start:
`*pos == '#'`, then up to 6 `#`, then space/tab/newline/NUL. -/
def checkHeadingStart (l : List Nat) : Bool :=
  l.getD 0 0 == 35 &&
  (let lv := ((l.take 6).takeWhile (· == 35)).length
   0 < lv && (l.getD lv 0 == 32 || l.getD lv 0 == 9 || l.getD lv 0 == 10 || l.getD lv 0 == 0))

/-- Code-fence test of the detector: first byte `` ` `` or `~`, next two
bytes non-NUL and equal to it. -/
def checkFenceStart (l : List Nat) : Bool :=
  (l.getD 0 0 == 96 || l.getD 0 0 == 126) &&
  (l.getD 1 0 != 0 && l.getD 2 0 != 0 &&
   l.getD 0 0 == l.getD 1 0 && l.getD 1 0 == l.getD 2 0)

/-- Decimal digit byte. -/
def isDigitB (c : Nat) : Bool := 48 ≤ c && c ≤ 57

/-- List-item test of the detector: `-`/`*`/`+` then space/tab, or digits
then `.`/`)` then space/tab. -/
def checkListStart (l : List Nat) : Bool :=
  if (l.getD 0 0 == 45 || l.getD 0 0 == 42 || l.getD 0 0 == 43) then
    l.getD 1 0 != 0 && (l.getD 1 0 == 32 || l.getD 1 0 == 9)
  else if isDigitB (l.getD 0 0) then
    let after := l.dropWhile isDigitB
    (after.getD 0 0 == 46 || after.getD 0 0 == 41) &&
    after.getD 1 0 != 0 && (after.getD 1 0 == 32 || after.getD 1 0 == 9)
  else false

/-- Blockquote test of the detector: `>` after the skipped spaces. -/
def checkBlockquoteStart (l : List Nat) : Bool := l.getD 0 0 == 62

/-- Table test at `|`: another `|` on the same line after it. -/
def checkTableAt (rest : List Nat) : Bool := (rest.takeWhile (· != 10)).contains 124

/-- Link test at `[`: scan with bracket depth; on closing to depth 0 the
next byte must be `(`. -/
def linkScan : List Nat → Nat → Bool
  | [], _ => false
  | c :: rest, d =>
    let d' := if c = 91 then d + 1 else if c = 93 then d - 1 else d
    if d' = 0 then rest.getD 0 0 == 40 else linkScan rest d'

/-- Heading indicator update (`if (*pos == '#' && !has_heading) ...`). -/
def updHeading (st : MDState) (a : List Nat) : MDState :=
  if ¬st.hasHeading ∧ checkHeadingStart a then
    { st with hasHeading := true, indicators := st.indicators + 1 } else st

/-- Code-fence indicator update. -/
def updFence (st : MDState) (a : List Nat) : MDState :=
  if ¬st.hasFence ∧ checkFenceStart a then
    { st with hasFence := true, indicators := st.indicators + 1 } else st

/-- List-item indicator update. -/
def updList (st : MDState) (a : List Nat) : MDState :=
  if ¬st.hasList ∧ checkListStart a then
    { st with hasList := true, indicators := st.indicators + 1 } else st

/-- Blockquote indicator update. -/
def updBlockquote (st : MDState) (a : List Nat) : MDState :=
  if ¬st.hasBlockquote ∧ checkBlockquoteStart a then
    { st with hasBlockquote := true, indicators := st.indicators + 1 } else st

/-- Table indicator update at byte `c` followed by `rest`. -/
def updTable (st : MDState) (c : Nat) (rest : List Nat) : MDState :=
  if c = 124 ∧ ¬st.hasTable ∧ checkTableAt rest then
    { st with hasTable := true, indicators := st.indicators + 1 } else st

/-- Link indicator update at byte `c` followed by `rest`. -/
def updLink (st : MDState) (c : Nat) (rest : List Nat) : MDState :=
  if c = 91 ∧ ¬st.hasLink ∧ linkScan rest 1 then
    { st with hasLink := true, indicators := st.indicators + 1 } else st

/-- Line-start indicator updates (heading, fence, list, blockquote), applied
to the line with up to 4 leading spaces skipped; each fires at most once. -/
def lineStartChecks (st : MDState) (l : List Nat) : MDState :=
  updBlockquote (updList (updFence (updHeading st (dropSpacesUpTo 4 l))
    (dropSpacesUpTo 4 l)) (dropSpacesUpTo 4 l)) (dropSpacesUpTo 4 l)

/-- Inline indicator updates (table at `|`, link at `[`) at byte `c`
followed by `rest`. -/
def inlineChecks (st : MDState) (c : Nat) (rest : List Nat) : MDState :=
  updLink (updTable st c rest) c rest

/-- Processing of one byte of the detector's main loop (line-start checks
when `at_line_start`, then inline checks, then `at_line_start` update). -/
def mdStep (st : MDState) (c : Nat) (rest : List Nat) : MDState :=
  let st1 := if st.atLineStart then lineStartChecks st (c :: rest) else st
  let st2 := inlineChecks st1 c rest
  { st2 with atLineStart := c == 10 }

/-- The detector's scan with its early exit (`if (indicators >= 2) return
true`); at end of input, `has_heading || has_code_fence || indicators >= 2`. -/
def mdScanE : List Nat → MDState → Bool
  | [], st => st.hasHeading || st.hasFence || decide (2 ≤ st.indicators)
  | c :: rest, st =>
    let st' := mdStep st c rest
    if 2 ≤ st'.indicators then true else mdScanE rest st'

/-- `is_likely_markdown` (hybrid_chunking.c). -/
def is_likely_markdown (content : List Nat) : Bool :=
  if content = [] then false else mdScanE content mdInit

/-- The same scan without the early exit, returning the final state; used to
state that the early exit does not change the verdict. -/
def mdScanFull : List Nat → MDState → MDState
  | [], st => st
  | c :: rest, st => mdScanFull rest (mdStep st c rest)

example : is_likely_markdown (strB "# Heading\n\nBody text") = true := by decide
example : is_likely_markdown (strB "plain sentence with no markup") = false := by decide
example : is_likely_markdown (strB "- item") = false := by decide
example : is_likely_markdown (strB "# Title\n\nShort para.") = true := by decide

/-! ## hybrid_chunking.c: structure parser (`parse_markdown_structure`) -/

/-- Markdown element kinds (`MarkdownElementType`). -/
inductive MDType where
  | heading | paragraph | codeBlock | listItem | blockquote | table | horizontalRule
deriving DecidableEq, Repr

/-- `MarkdownElement`: kind, heading level, content bytes, token count,
optional heading context (NULL modelled as `none`). -/
structure MDElement where
  type : MDType
  heading_level : Nat
  content : List Nat
  token_count : Nat
  heading_context : Option (List Nat)
deriving DecidableEq, Repr

/-- Split the input at the first `'\n'`: the line, whether a newline was
consumed, and the remainder. -/
def splitLine : List Nat → List Nat × Bool × List Nat
  | [] => ([], false, [])
  | c :: rest =>
    if c = 10 then ([], true, rest)
    else
      let s := splitLine rest
      (c :: s.1, s.2.1, s.2.2)

/-- `is_blank_line`: only `' '`, `'\t'`, `'\r'`. -/
def is_blank_line (line : List Nat) : Bool :=
  line.all (fun c => c == 32 || c == 9 || c == 13)

/-- `get_heading_level`: number of leading `#` (max 6, at least 1), which
must be followed by space, tab or end of line; otherwise 0. -/
def get_heading_level (line : List Nat) : Nat :=
  if line = [] then 0
  else
    let level := ((line.take 6).takeWhile (· == 35)).length
    if level = 0 then 0
    else if level < line.length ∧ line.getD level 0 ≠ 32 ∧ line.getD level 0 ≠ 9 then 0
    else level

/-- `is_code_fence`: after up to 3 leading spaces, three `` ` `` or three `~`. -/
def is_code_fence (line : List Nat) : Bool :=
  let l := dropSpacesUpTo 3 line
  if l.length < 3 then false
  else
    (l.getD 0 0 == 96 && l.getD 1 0 == 96 && l.getD 2 0 == 96) ||
    (l.getD 0 0 == 126 && l.getD 1 0 == 126 && l.getD 2 0 == 126)

/-- `is_list_item`: after all leading spaces/tabs, `-`/`*`/`+` plus
space/tab, or digits plus `.`/`)` plus space/tab. -/
def is_list_item (line : List Nat) : Bool :=
  let l := line.dropWhile (fun c => c == 32 || c == 9)
  match l with
  | [] => false
  | c :: rest =>
    if c = 45 ∨ c = 42 ∨ c = 43 then
      match rest with
      | d :: _ => d == 32 || d == 9
      | [] => false
    else if isDigitB c then
      let after := l.dropWhile isDigitB
      match after with
      | d :: e :: _ => (d == 46 || d == 41) && (e == 32 || e == 9)
      | _ => false
    else false

/-- `is_blockquote`: `>` after up to 3 leading spaces. -/
def is_blockquote (line : List Nat) : Bool :=
  (dropSpacesUpTo 3 line).getD 0 0 == 62

/-- Counting loop of `is_horizontal_rule`: bytes equal to the rule char are
counted, spaces are allowed, anything else rejects. -/
def hrCount (ruleChar : Nat) : List Nat → Option Nat
  | [] => some 0
  | c :: rest =>
    if c = ruleChar then (hrCount ruleChar rest).map (· + 1)
    else if c = 32 then hrCount ruleChar rest
    else none

/-- `is_horizontal_rule`: after up to 3 leading spaces, a `-`/`*`/`_` rule
char, then only rule chars and spaces with at least 3 rule chars. -/
def is_horizontal_rule (line : List Nat) : Bool :=
  let l := dropSpacesUpTo 3 line
  match l with
  | [] => false
  | c :: _ =>
    if c = 45 ∨ c = 42 ∨ c = 95 then
      match hrCount c l with
      | some n => 3 ≤ n
      | none => false
    else false

/-- `is_table_row`: the line contains a `|`. -/
def is_table_row (line : List Nat) : Bool := line.contains 124

/-- Parser state: `in_code_block`, the accumulation buffer, `current_type`,
the six-slot heading stack and `current_heading_context`. -/
structure PState where
  inCode : Bool
  block : List Nat
  curType : MDType
  stack : List (Option (List Nat))
  ctx : Option (List Nat)
deriving DecidableEq, Repr

/-- Initial parser state: empty buffer, Paragraph, empty 6-slot stack. -/
def pInit : PState :=
  ⟨false, [], MDType.paragraph, [none, none, none, none, none, none], none⟩

/-- Element constructed at a buffer flush (`token_count` recomputed from the
content, context duplicated from the current one). -/
def mkElem (t : MDType) (content : List Nat) (ctx : Option (List Nat)) : MDElement :=
  ⟨t, 0, content, count_tokens content, ctx⟩

/-- Flush of a non-empty accumulation buffer (`if (current_block.len > 0)`). -/
def flushPending (st : PState) : List MDElement :=
  if st.block ≠ [] then [mkElem st.curType st.block st.ctx] else []

/-- `for (i = heading_level; i < MAX_HEADING_LEVELS; i++) clear slot i`:
clears every slot of index `≥ lvl` (`i` is the index of the head of the
remaining list). -/
def clearFrom (lvl : Nat) : List (Option (List Nat)) → Nat → List (Option (List Nat))
  | [], _ => []
  | v :: rest, i => (if lvl ≤ i then none else v) :: clearFrom lvl rest (i + 1)

/-- Heading text: drop the `#` run, then leading spaces/tabs. -/
def headingText (line : List Nat) (lvl : Nat) : List Nat :=
  (line.drop lvl).dropWhile (fun c => c == 32 || c == 9)

/-- Concatenation loop of `build_heading_context`: non-empty slots low to
high, `i+1` `#` marks, `' '`, the heading text, separated by `" > "`. -/
def bhcGo : List (Option (List Nat)) → Nat → Bool → List Nat → List Nat
  | [], _, _, acc => acc
  | none :: rest, i, first, acc => bhcGo rest (i + 1) first acc
  | some s :: rest, i, _first, acc =>
    bhcGo rest (i + 1) false
      (acc ++ (if _first then [] else [32, 62, 32]) ++ List.replicate (i + 1) 35 ++ [32] ++ s)

/-- `build_heading_context` (hybrid_chunking.c): NULL for an empty result. -/
def build_heading_context (stack : List (Option (List Nat))) : Option (List Nat) :=
  let r := bhcGo stack 0 true []
  if r = [] then none else some r

/-- Main loop of `parse_markdown_structure`, one line per iteration, with
fuel (the wrapper passes `content.length + 1`, which suffices because every
iteration consumes at least one byte). -/
def parseGo : Nat → List Nat → PState → List MDElement → List MDElement
  | 0, _, _, acc => acc
  | _ + 1, [], st, acc => acc ++ flushPending st
  | fuel + 1, rem@(_ :: _), st, acc =>
    let s := splitLine rem
    let line := s.1
    let nl := s.2.1
    let rest := s.2.2
    if is_code_fence line then
      if st.inCode then
        let block2 := st.block ++ line ++ (if nl then [10] else [])
        let acc2 := acc ++ (if block2 ≠ [] then [mkElem MDType.codeBlock block2 st.ctx] else [])
        parseGo fuel rest { st with inCode := false, block := [], curType := MDType.paragraph } acc2
      else
        parseGo fuel rest
          { st with inCode := true, curType := MDType.codeBlock,
                    block := line ++ (if nl then [10] else []) }
          (acc ++ flushPending st)
    else if st.inCode then
      parseGo fuel rest { st with block := st.block ++ line ++ (if nl then [10] else []) } acc
    else if is_blank_line line then
      parseGo fuel rest { st with block := [], curType := MDType.paragraph }
        (acc ++ flushPending st)
    else
      let lvl := get_heading_level line
      if 0 < lvl then
        let acc2 := acc ++ flushPending st
        let stack2 := (clearFrom lvl st.stack 0).set (lvl - 1) (some (headingText line lvl))
        let ctx2 := build_heading_context stack2
        let elem : MDElement := ⟨MDType.heading, lvl, line, count_tokens line, ctx2⟩
        parseGo fuel rest
          { st with block := [], curType := MDType.paragraph, stack := stack2, ctx := ctx2 }
          (acc2 ++ [elem])
      else if is_horizontal_rule line then
        let acc2 := acc ++ flushPending st
        let elem : MDElement := ⟨MDType.horizontalRule, 0, line, 1, st.ctx⟩
        parseGo fuel rest { st with block := [], curType := MDType.paragraph } (acc2 ++ [elem])
      else
        let s1 : PState × List MDElement :=
          if is_list_item line then
            if st.curType ≠ MDType.listItem ∧ st.block ≠ [] then
              ({ st with block := [], curType := MDType.listItem }, acc ++ flushPending st)
            else ({ st with curType := MDType.listItem }, acc)
          else (st, acc)
        let s2 : PState × List MDElement :=
          if is_blockquote line then
            if s1.1.curType ≠ MDType.blockquote ∧ s1.1.block ≠ [] then
              ({ s1.1 with block := [], curType := MDType.blockquote },
               s1.2 ++ flushPending s1.1)
            else ({ s1.1 with curType := MDType.blockquote }, s1.2)
          else s1
        let s3 : PState × List MDElement :=
          if is_table_row line then
            if s2.1.curType ≠ MDType.table ∧ s2.1.block ≠ [] then
              ({ s2.1 with block := [], curType := MDType.table }, s2.2 ++ flushPending s2.1)
            else ({ s2.1 with curType := MDType.table }, s2.2)
          else s2
        let block2 := (if s3.1.block ≠ [] then s3.1.block ++ [10] else []) ++ line
        parseGo fuel rest { s3.1 with block := block2 } s3.2

/-- `parse_markdown_structure` (hybrid_chunking.c). -/
def parse_markdown_structure (content : List Nat) : List MDElement :=
  if content = [] then [] else parseGo (content.length + 1) content pInit []

/-! ## hybrid_chunking.c: refinement passes and orchestrators -/

/-- `HybridChunk`: content, token count, optional heading context (the
`chunk_index` field, always 0, is omitted). -/
structure HybridChunk where
  content : List Nat
  token_count : Nat
  heading_context : Option (List Nat)
deriving DecidableEq, Repr

/-- `create_hybrid_chunk`: token count recomputed from the content. -/
def create_hybrid_chunk (content : List Nat) (ctx : Option (List Nat)) : HybridChunk :=
  ⟨content, count_tokens content, ctx⟩

/-- Whitespace skipped between sub-chunks in `split_oversized_chunks`
(`' '`, `'\t'`, `'\n'`, `'\r'`). -/
def skipWsSplit (content : List Nat) (start : Nat) : Nat :=
  start + ((content.drop start).takeWhile isSkipWs).length

/-- One iteration of the splitting loop of `split_oversized_chunks`:
the emitted sub-chunk content and the next `start_offset`. -/
def splitStep (content : List Nat) (maxTokens : Int) (start : Nat) : List Nat × Nat :=
  let endOff := endOffset content maxTokens start
  ((content.drop start).take endOff, skipWsSplit content (start + endOff))

/-- The `while (start_offset < content_len)` loop of `split_oversized_chunks`,
with fuel. -/
def splitLoop (content : List Nat) (maxTokens : Int) : Nat → Nat → List (List Nat)
  | 0, _ => []
  | fuel + 1, start =>
    if start < content.length then
      let s := splitStep content maxTokens start
      s.1 :: splitLoop content maxTokens fuel s.2
    else []

/-- Sub-chunks of one oversized chunk: each is built by
`create_hybrid_chunk(sub_content, chunk->heading_context)`. -/
def splitChunk (content : List Nat) (ctx : Option (List Nat)) (maxTokens : Int) :
    List HybridChunk :=
  (splitLoop content maxTokens content.length 0).map (fun s => create_hybrid_chunk s ctx)

/-- `split_oversized_chunks` (hybrid_chunking.c): chunks within the limit
pass through, oversized chunks are replaced by their sub-chunks. -/
def split_oversized_chunks (chunks : List HybridChunk) (maxTokens : Int) : List HybridChunk :=
  chunks.flatMap (fun c =>
    if (c.token_count : Int) ≤ maxTokens then [c]
    else splitChunk c.content c.heading_context maxTokens)

/-- Context comparison of the merge pass: both NULL, or both non-NULL and
byte-equal (`strcmp == 0`). -/
def sameContext (a b : Option (List Nat)) : Bool :=
  match a, b with
  | none, none => true
  | some x, some y => x == y
  | _, _ => false

/-- The merged chunk: contents joined by `"\n\n"`, token count recomputed,
pending's heading context kept. -/
def mergeChunks (p c : HybridChunk) : HybridChunk :=
  ⟨p.content ++ [10, 10] ++ c.content,
   count_tokens (p.content ++ [10, 10] ++ c.content), p.heading_context⟩

/-- Scan loop of `merge_undersized_chunks` with the pending accumulator. -/
def mergeGo (minT maxT : Int) : List HybridChunk → Option HybridChunk →
    List HybridChunk → List HybridChunk
  | [], pending, acc =>
    acc ++ (match pending with | some p => [p] | none => [])
  | c :: rest, none, acc =>
    if (minT : Int) ≤ (c.token_count : Int) then mergeGo minT maxT rest none (acc ++ [c])
    else mergeGo minT maxT rest (some c) acc
  | c :: rest, some p, acc =>
    if sameContext p.heading_context c.heading_context ∧
       (p.token_count : Int) + (c.token_count : Int) ≤ maxT then
      mergeGo minT maxT rest (some (mergeChunks p c)) acc
    else
      if (minT : Int) ≤ (c.token_count : Int) then
        mergeGo minT maxT rest none (acc ++ [p, c])
      else mergeGo minT maxT rest (some c) (acc ++ [p])

/-- `merge_undersized_chunks` (hybrid_chunking.c). -/
def merge_undersized_chunks (chunks : List HybridChunk) (minT maxT : Int) :
    List HybridChunk :=
  mergeGo minT maxT chunks none []

/-- Rendering of a final chunk: `"[Context: " + ctx + "]\n\n" + content`
when the heading context is non-NULL and non-empty, else the content. -/
def renderChunk (c : HybridChunk) : List Nat :=
  match c.heading_context with
  | some ctx =>
    if ctx ≠ [] then strB "[Context: " ++ ctx ++ [93, 10, 10] ++ c.content
    else c.content
  | none => c.content

/-- `min_tokens` computation of `chunk_hybrid`: `chunk_size / 4`, at least
20 (C integer division truncates toward zero; for any `chunk_size < 80`
both roundings are below 20, so `Int.div` agrees with the C result here). -/
def hybridMinTokens (chunk_size : Int) : Int :=
  if chunk_size / 4 < 20 then 20 else chunk_size / 4

/-- `chunk_hybrid` (hybrid_chunking.c). -/
def chunk_hybrid (stripFlag : Bool) (content : List Nat) (cfg : ChunkConfig) :
    List (List Nat) :=
  if content = [] then []
  else if ¬is_likely_markdown content then chunk_by_tokens stripFlag content cfg
  else
    let elements := parse_markdown_structure content
    if elements = [] then []
    else
      let chunks := (elements.filter (fun e => e.type ≠ MDType.horizontalRule)).map
        (fun e => create_hybrid_chunk e.content e.heading_context)
      if chunks = [] then []
      else
        let refined := split_oversized_chunks chunks cfg.chunk_size
        let merged := merge_undersized_chunks refined (hybridMinTokens cfg.chunk_size)
          cfg.chunk_size
        merged.map renderChunk

/-- Whitespace skipped in `elements_to_chunks_simple` (`' '`, `'\t'`,
`'\n'`; no `'\r'`, unlike the split pass). -/
def skipWsSimple (content : List Nat) (start : Nat) : Nat :=
  start + ((content.drop start).takeWhile (fun c => c == 32 || c == 9 || c == 10)).length

/-- One iteration of the element-splitting loop of
`elements_to_chunks_simple`. -/
def splitStepSimple (content : List Nat) (chunkSize : Int) (start : Nat) : List Nat × Nat :=
  let endOff := endOffset content chunkSize start
  ((content.drop start).take endOff, skipWsSimple content (start + endOff))

/-- Splitting loop of `elements_to_chunks_simple`, with fuel. -/
def splitLoopSimple (content : List Nat) (chunkSize : Int) : Nat → Nat → List (List Nat)
  | 0, _ => []
  | fuel + 1, start =>
    if start < content.length then
      let s := splitStepSimple content chunkSize start
      s.1 :: splitLoopSimple content chunkSize fuel s.2
    else []

/-- `elements_to_chunks_simple` (hybrid_chunking.c): per-element splitting
without refinement, then rendering. -/
def elements_to_chunks_simple (elements : List MDElement) (cfg : ChunkConfig) :
    List (List Nat) :=
  if elements = [] then []
  else
    let chunks := elements.flatMap (fun e =>
      if e.type = MDType.horizontalRule then []
      else if cfg.chunk_size < (e.token_count : Int) then
        (splitLoopSimple e.content cfg.chunk_size e.content.length 0).map
          (fun s => create_hybrid_chunk s e.heading_context)
      else [create_hybrid_chunk e.content e.heading_context])
    chunks.map renderChunk

/-- `chunk_markdown` (hybrid_chunking.c). -/
def chunk_markdown (stripFlag : Bool) (content : List Nat) (cfg : ChunkConfig) :
    List (List Nat) :=
  if content = [] then []
  else if ¬is_likely_markdown content then chunk_by_tokens stripFlag content cfg
  else
    let elements := parse_markdown_structure content
    if elements = [] then [] else elements_to_chunks_simple elements cfg

/-- `chunk_text` (chunking.c): strategy dispatch; the unimplemented
strategies fall back to `chunk_by_tokens`. -/
def chunk_text (stripFlag : Bool) (content : List Nat) (cfg : ChunkConfig) :
    List (List Nat) :=
  if content = [] then []
  else
    match cfg.strategy with
    | ChunkStrategy.token => chunk_by_tokens stripFlag content cfg
    | ChunkStrategy.hybrid => chunk_hybrid stripFlag content cfg
    | ChunkStrategy.markdown => chunk_markdown stripFlag content cfg
    | ChunkStrategy.semantic => chunk_by_tokens stripFlag content cfg
    | ChunkStrategy.sentence => chunk_by_tokens stripFlag content cfg
    | ChunkStrategy.recursive => chunk_by_tokens stripFlag content cfg

/-! ## Helper lemmas -/

lemma mem_rangeFrom (n : Nat) : ∀ a o : Int, o ∈ rangeFrom a n ↔ a ≤ o ∧ o < a + n := by
  induction n with
  | zero => intro a o; simp [rangeFrom]
  | succ k ih =>
    intro a o
    simp only [rangeFrom, List.mem_cons, ih]
    omega

lemma find?_rangeFrom_min (p : Int → Bool) (n : Nat) :
    ∀ a r, (rangeFrom a n).find? p = some r →
      p r = true ∧ r ∈ rangeFrom a n ∧ ∀ o ∈ rangeFrom a n, p o = true → r ≤ o := by
  induction n with
  | zero => intro a r h; simp [rangeFrom] at h
  | succ k ih =>
    intro a r h
    rw [rangeFrom, List.find?_cons] at h
    by_cases hpa : p a
    · rw [hpa] at h
      cases h
      refine ⟨hpa, by simp [rangeFrom], ?_⟩
      intro o ho _
      rcases (List.mem_cons).1 (by simpa [rangeFrom] using ho) with h1 | h2
      · omega
      · have := (mem_rangeFrom k (a + 1) o).1 h2
        omega
    · rw [Bool.not_eq_true] at hpa
      rw [hpa] at h
      obtain ⟨h1, h2, h3⟩ := ih (a + 1) r h
      refine ⟨h1, by simp [rangeFrom, h2], ?_⟩
      intro o ho hpo
      rcases (List.mem_cons).1 (by simpa [rangeFrom] using ho) with rfl | hmem
      · exact absurd hpo (by simpa using hpa)
      · exact h3 o hmem hpo

lemma filter_ne_nil_iff_find?_isSome (p : α → Bool) (l : List α) :
    l.filter p ≠ [] ↔ (l.find? p).isSome := by
  constructor
  · intro h
    rcases List.exists_mem_of_ne_nil _ h with ⟨x, hx⟩
    have hx' := List.mem_filter.1 hx
    cases hfind : l.find? p with
    | none => exact absurd hx'.2 (by simpa using List.find?_eq_none.1 hfind x hx'.1)
    | some r => simp
  · intro h hnil
    cases hfind : l.find? p with
    | none => rw [hfind] at h; simp at h
    | some r =>
      have hr := List.find?_some hfind
      have hmem := List.mem_of_find?_eq_some hfind
      have : r ∈ l.filter p := List.mem_filter.2 ⟨hmem, hr⟩
      rw [hnil] at this
      simp at this

lemma find?_scan_min (t m : Int) (p : Int → Bool) (r : Int)
    (h : (scanOffsets t m).find? p = some r) :
    p r = true ∧ r ∈ (scanOffsets t m).filter p ∧
      ∀ o ∈ (scanOffsets t m).filter p, r ≤ o := by
  obtain ⟨h1, h2, h3⟩ := find?_rangeFrom_min p _ _ r h
  exact ⟨h1, List.mem_filter.2 ⟨h2, h1⟩,
    fun o ho => h3 o (List.mem_filter.1 ho).1 (List.mem_filter.1 ho).2⟩

lemma find?_none_iff_filter_nil (p : α → Bool) (l : List α) :
    l.find? p = none ↔ l.filter p = [] := by
  rw [List.find?_eq_none, List.filter_eq_nil_iff]

/-! ## Claim theorems -/

/-- C7: for `target_offset < max_offset`, `find_good_break_point` searches
the window in tier priority (paragraph break, then sentence end, then word
break); the first tier containing a match wins and the lowest matching
offset of that tier is returned; when no tier matches it returns
`min(target_offset, max_offset)`; and for `target_offset >= max_offset`
it returns `max_offset`. -/
theorem fgbp_tier_priority (text : List Nat) (t m : Int) :
    (m ≤ t → find_good_break_point text t m = m) ∧
    (t < m → tier1Matches text t m ≠ [] →
      find_good_break_point text t m ∈ tier1Matches text t m ∧
      ∀ o ∈ tier1Matches text t m, find_good_break_point text t m ≤ o) ∧
    (t < m → tier1Matches text t m = [] → tier2Matches text t m ≠ [] →
      find_good_break_point text t m ∈ tier2Matches text t m ∧
      ∀ o ∈ tier2Matches text t m, find_good_break_point text t m ≤ o) ∧
    (t < m → tier1Matches text t m = [] → tier2Matches text t m = [] →
      tier3Matches text t m ≠ [] →
      find_good_break_point text t m ∈ tier3Matches text t m ∧
      ∀ o ∈ tier3Matches text t m, find_good_break_point text t m ≤ o) ∧
    (t < m → tier1Matches text t m = [] → tier2Matches text t m = [] →
      tier3Matches text t m = [] → find_good_break_point text t m = min t m) := by
  refine ⟨?_, ?_, ?_, ?_, ?_⟩
  · intro h
    rw [find_good_break_point, if_pos h]
  · intro hlt h1
    have hns : ¬ m ≤ t := by omega
    have hsome := (filter_ne_nil_iff_find?_isSome _ _).1 h1
    rw [Option.isSome_iff_exists] at hsome
    obtain ⟨r, hr⟩ := hsome
    rw [find_good_break_point, if_neg hns, hr]
    obtain ⟨_, hmem, hmin⟩ := find?_scan_min t m _ r hr
    exact ⟨hmem, hmin⟩
  · intro hlt h1 h2
    have hns : ¬ m ≤ t := by omega
    have hn1 : (scanOffsets t m).find? (isParaBreak text) = none :=
      (find?_none_iff_filter_nil _ _).2 h1
    have hsome := (filter_ne_nil_iff_find?_isSome _ _).1 h2
    rw [Option.isSome_iff_exists] at hsome
    obtain ⟨r, hr⟩ := hsome
    rw [find_good_break_point, if_neg hns, hn1, hr]
    obtain ⟨_, hmem, hmin⟩ := find?_scan_min t m _ r hr
    exact ⟨hmem, hmin⟩
  · intro hlt h1 h2 h3
    have hns : ¬ m ≤ t := by omega
    have hn1 : (scanOffsets t m).find? (isParaBreak text) = none :=
      (find?_none_iff_filter_nil _ _).2 h1
    have hn2 : (scanOffsets t m).find? (isSentenceEnd text) = none :=
      (find?_none_iff_filter_nil _ _).2 h2
    have hsome := (filter_ne_nil_iff_find?_isSome _ _).1 h3
    rw [Option.isSome_iff_exists] at hsome
    obtain ⟨r, hr⟩ := hsome
    rw [find_good_break_point, if_neg hns, hn1, hn2, hr]
    obtain ⟨_, hmem, hmin⟩ := find?_scan_min t m _ r hr
    exact ⟨hmem, hmin⟩
  · intro hlt h1 h2 h3
    have hns : ¬ m ≤ t := by omega
    have hn1 : (scanOffsets t m).find? (isParaBreak text) = none :=
      (find?_none_iff_filter_nil _ _).2 h1
    have hn2 : (scanOffsets t m).find? (isSentenceEnd text) = none :=
      (find?_none_iff_filter_nil _ _).2 h2
    have hn3 : (scanOffsets t m).find? (isWordBreak text) = none :=
      (find?_none_iff_filter_nil _ _).2 h3
    rw [find_good_break_point, if_neg hns, hn1, hn2, hn3, if_pos hlt]
    exact (min_eq_left hlt.le).symm

/-- Witness for C7 at a concrete input: on `"ab cd"` with target 1 and max
5 the first two tiers are empty and the word-break tier returns offset 2. -/
theorem fgbp_tier_priority_witness :
    find_good_break_point (strB "ab cd") 1 5 ∈ tier3Matches (strB "ab cd") 1 5 ∧
    ∀ o ∈ tier3Matches (strB "ab cd") 1 5, find_good_break_point (strB "ab cd") 1 5 ≤ o :=
  (fgbp_tier_priority (strB "ab cd") 1 5).2.2.2.1 (by decide) (by decide) (by decide)
    (by decide)

/-- C10 is violated by the code: on the 10-byte text `"aaaaaaaaaa"` with
`target_offset = 1` and `max_offset = 10` (satisfying
`0 ≤ target_offset < max_offset ≤ length`), the word-break tier of
`find_good_break_point` reads `text[-49]`, a negative index outside
`[0, max_offset)`. -/
theorem fgbp_reads_negative_index :
    (-49 : Int) ∈ fgbpReads (List.replicate 10 97) 1 10 ∧
    (-49 : Int) < 0 ∧ (0 : Int) ≤ 1 ∧ (1 : Int) < 10 ∧
    (10 : Int) ≤ (List.replicate 10 97 : List Nat).length := by
  refine ⟨by decide, by decide, by decide, by decide, by decide⟩

/-! ### Monotonicity of the markdown-detector indicator counter -/

lemma updHeading_ind_le (st : MDState) (a : List Nat) :
    st.indicators ≤ (updHeading st a).indicators := by
  unfold updHeading; split <;> simp

lemma updFence_ind_le (st : MDState) (a : List Nat) :
    st.indicators ≤ (updFence st a).indicators := by
  unfold updFence; split <;> simp

lemma updList_ind_le (st : MDState) (a : List Nat) :
    st.indicators ≤ (updList st a).indicators := by
  unfold updList; split <;> simp

lemma updBlockquote_ind_le (st : MDState) (a : List Nat) :
    st.indicators ≤ (updBlockquote st a).indicators := by
  unfold updBlockquote; split <;> simp

lemma updTable_ind_le (st : MDState) (c : Nat) (rest : List Nat) :
    st.indicators ≤ (updTable st c rest).indicators := by
  unfold updTable; split <;> simp

lemma updLink_ind_le (st : MDState) (c : Nat) (rest : List Nat) :
    st.indicators ≤ (updLink st c rest).indicators := by
  unfold updLink; split <;> simp

lemma mdStep_ind_le (st : MDState) (c : Nat) (rest : List Nat) :
    st.indicators ≤ (mdStep st c rest).indicators := by
  unfold mdStep inlineChecks lineStartChecks
  by_cases h : st.atLineStart
  · simp only [h, if_pos]
    calc st.indicators
        ≤ _ := updHeading_ind_le st _
      _ ≤ _ := updFence_ind_le _ _
      _ ≤ _ := updList_ind_le _ _
      _ ≤ _ := updBlockquote_ind_le _ _
      _ ≤ _ := updTable_ind_le _ _ _
      _ ≤ _ := updLink_ind_le _ _ _
  · simp only [h, if_neg, if_false]
    calc st.indicators
        ≤ _ := updTable_ind_le _ _ _
      _ ≤ _ := updLink_ind_le _ _ _

lemma mdScanFull_ind_le (l : List Nat) : ∀ st : MDState,
    st.indicators ≤ (mdScanFull l st).indicators := by
  induction l with
  | nil => intro st; simp [mdScanFull]
  | cons c rest ih =>
    intro st
    exact le_trans (mdStep_ind_le st c rest) (ih (mdStep st c rest))

/-- The early exit of the detector scan does not change the verdict: the
scan with early exit equals the test
`has_heading || has_code_fence || indicators >= 2` on the final state of
the scan without early exit. -/
lemma mdScanE_eq_full (l : List Nat) : ∀ st : MDState,
    mdScanE l st = ((mdScanFull l st).hasHeading || (mdScanFull l st).hasFence ||
      decide (2 ≤ (mdScanFull l st).indicators)) := by
  induction l with
  | nil => intro st; rfl
  | cons c rest ih =>
    intro st
    show (if 2 ≤ (mdStep st c rest).indicators then true else mdScanE rest (mdStep st c rest)) = _
    by_cases h : 2 ≤ (mdStep st c rest).indicators
    · have h2 : 2 ≤ (mdScanFull (c :: rest) st).indicators := by
        calc (2 : Nat) ≤ (mdStep st c rest).indicators := h
          _ ≤ (mdScanFull rest (mdStep st c rest)).indicators := mdScanFull_ind_le rest _
          _ = (mdScanFull (c :: rest) st).indicators := rfl
      simp [h, h2]
    · rw [if_neg h, ih (mdStep st c rest)]
      rfl

/-- C8: the markdown detection gate returns true exactly when two distinct
indicator kinds are seen or a heading or a code fence is seen (even alone)
— the early exit of the scan never changes the verdict — and on the three
reference inputs it returns true, false and false respectively. -/
theorem md_detection_gate :
    (∀ content : List Nat, is_likely_markdown content =
      ((mdScanFull content mdInit).hasHeading || (mdScanFull content mdInit).hasFence ||
        decide (2 ≤ (mdScanFull content mdInit).indicators))) ∧
    is_likely_markdown (strB "# Heading\n\nBody text") = true ∧
    is_likely_markdown (strB "plain sentence with no markup") = false ∧
    is_likely_markdown (strB "- item") = false := by
  refine ⟨?_, by decide, by decide, by decide⟩
  intro content
  by_cases h : content = []
  · subst h; decide
  · rw [is_likely_markdown, if_neg h]
    exact mdScanE_eq_full content mdInit

/-! ### `strip_non_ascii`: actual behaviour -/

/-- Reference description of what `strip_non_ascii` actually does: ASCII
bytes are copied unchanged and in order; a maximal run of bytes `≥ 0x80`
becomes exactly one space when the output so far is non-empty and does not
end in a space (`lastSp = false`), and nothing otherwise — so a leading
run, or a run right after a space, is deleted. -/
def stripRefGo : List Nat → Bool → List Nat
  | [], _ => []
  | c :: rest, lastSp =>
    if c < 128 then c :: stripRefGo rest (c == 32)
    else if lastSp then stripRefGo rest lastSp
    else 32 :: stripRefGo rest true

/-- Reference stripper started with an empty output. -/
def stripRef (text : List Nat) : List Nat := stripRefGo text true

lemma foldl_stripStep (l : List Nat) : ∀ acc : List Nat,
    l.foldl stripStep acc =
      acc ++ stripRefGo l (decide (acc = [] ∨ acc.getLast? = some 32)) := by
  induction l with
  | nil => intro acc; simp [stripRefGo]
  | cons c rest ih =>
    intro acc
    rw [List.foldl_cons, ih (stripStep acc c)]
    by_cases hc : c < 128
    · have hs : stripStep acc c = acc ++ [c] := by rw [stripStep, if_pos hc]
      have hflag : decide (acc ++ [c] = [] ∨ (acc ++ [c]).getLast? = some 32) =
          (c == 32) := by
        by_cases h32 : c = 32 <;> simp [List.getLast?_append, h32]
      rw [hs, hflag]
      show acc ++ [c] ++ stripRefGo rest (c == 32) = acc ++ stripRefGo (c :: rest) _
      rw [stripRefGo, if_pos hc, List.append_assoc]
      rfl
    · by_cases hf : acc = [] ∨ acc.getLast? = some 32
      · have hs : stripStep acc c = acc := by
          have hcond : ¬ (acc ≠ [] ∧ acc.getLast? ≠ some 32) := by tauto
          rw [stripStep, if_neg (by omega), if_neg hcond]
        rw [hs]
        show acc ++ stripRefGo rest _ = acc ++ stripRefGo (c :: rest) _
        rw [stripRefGo, if_neg hc]
        simp [hf]
      · push_neg at hf
        have hs : stripStep acc c = acc ++ [32] := by
          rw [stripStep, if_neg (by omega), if_pos hf]
        have hflag : decide (acc ++ [32] = [] ∨ (acc ++ [32]).getLast? = some 32) = true := by
          simp [List.getLast?_append]
        rw [hs, hflag]
        show acc ++ [32] ++ stripRefGo rest true = acc ++ stripRefGo (c :: rest) _
        rw [stripRefGo, if_neg hc]
        simp [hf, List.append_assoc]

lemma stripRefGo_all_ascii (l : List Nat) : ∀ f : Bool,
    (stripRefGo l f).all (fun b => b < 128) = true := by
  induction l with
  | nil => intro f; rfl
  | cons c rest ih =>
    intro f
    rw [stripRefGo]
    by_cases hc : c < 128
    · rw [if_pos hc]
      simp [ih, hc]
    · rw [if_neg hc]
      by_cases hf : f
      · simpa [hf] using ih f
      · simp only [Bool.not_eq_true] at hf
        simp [hf, ih]

lemma stripRefGo_id_of_ascii (l : List Nat) (h : l.all (fun b => b < 128)) :
    ∀ f : Bool, stripRefGo l f = l := by
  induction l with
  | nil => intro f; rfl
  | cons c rest ih =>
    intro f
    simp only [List.all_cons, Bool.and_eq_true, decide_eq_true_eq] at h
    rw [stripRefGo, if_pos h.1, ih h.2]

/-- C9 fails as stated: the single non-ASCII run `[0xC3]` at the start of
the input is deleted, not replaced by one space; and on `"a<run> b"` the
output `"a  b"` contains two consecutive spaces (indices 1 and 2). -/
theorem strip_non_ascii_counterexample :
    strip_non_ascii [195] = [] ∧ strip_non_ascii [195] ≠ [32] ∧
    strip_non_ascii (strB "a" ++ [195, 169] ++ strB " b") = strB "a  b" ∧
    (strip_non_ascii (strB "a" ++ [195, 169] ++ strB " b")).getD 1 0 = 32 ∧
    (strip_non_ascii (strB "a" ++ [195, 169] ++ strB " b")).getD 2 0 = 32 := by
  refine ⟨by decide, by decide, by decide, by decide, by decide⟩

/-- C9 amended: `strip_non_ascii` equals the reference stripper — each
maximal non-ASCII run becomes one space only when the output so far is
non-empty and does not end in a space, and is deleted otherwise; ASCII
bytes are kept unchanged and in order; every output byte is ASCII. -/
theorem strip_non_ascii_amended :
    (∀ text : List Nat, strip_non_ascii text = stripRef text) ∧
    (∀ text : List Nat, (strip_non_ascii text).all (fun b => b < 128) = true) := by
  have key : ∀ text : List Nat, strip_non_ascii text = stripRef text := by
    intro text
    have := foldl_stripStep text []
    simpa [strip_non_ascii, stripRef] using this
  refine ⟨key, ?_⟩
  intro text
  rw [key]
  exact stripRefGo_all_ascii text true

/-- C2 fails as stated on the empty content: `count_tokens("") = 0` is
within any positive chunk size, yet `chunk_by_tokens` returns the empty
sequence, not one (empty) chunk. -/
theorem chunk_by_tokens_small_counterexample :
    (count_tokens ([] : List Nat) : Int) ≤ 400 ∧
    chunk_by_tokens false [] ⟨ChunkStrategy.token, 400, 50⟩ = [] ∧
    chunk_by_tokens false [] ⟨ChunkStrategy.token, 400, 50⟩ ≠ [[]] := by
  refine ⟨by decide, by decide, by decide⟩

/-- C2 amended: for every *non-empty* content whose token count is within
`chunk_size`, and with the ASCII-strip toggle disabled (or content that is
entirely ASCII, on which the strip is the identity), `chunk_by_tokens`
returns exactly one chunk equal to the content. -/
theorem chunk_by_tokens_small_amended (flag : Bool) (content : List Nat)
    (cfg : ChunkConfig) (hne : content ≠ [])
    (hascii : flag = false ∨ content.all (fun b => b < 128))
    (htok : (count_tokens content : Int) ≤ cfg.chunk_size) :
    chunk_by_tokens flag content cfg = [content] := by
  have hproc : (if flag then strip_non_ascii content else content) = content := by
    rcases hascii with h | h
    · rw [h]; rfl
    · cases flag with
      | false => rfl
      | true =>
        show strip_non_ascii content = content
        have := foldl_stripStep content []
        simpa [strip_non_ascii, stripRefGo_id_of_ascii content h] using this
  rw [chunk_by_tokens, if_neg hne]
  simp only [hproc]
  rw [if_neg hne, if_pos htok]

/-- Witness for C2's amended theorem at a concrete input. -/
theorem chunk_by_tokens_small_amended_witness :
    chunk_by_tokens false (strB "hi") ⟨ChunkStrategy.token, 400, 50⟩ = [strB "hi"] :=
  chunk_by_tokens_small_amended false (strB "hi") ⟨ChunkStrategy.token, 400, 50⟩
    (by decide) (Or.inl rfl) (by decide)

/-! ### Bounds on the token-offset scan and the break-point search -/

lemma gcoAux_le_length : ∀ (l : List Nat) (b a : Nat), gcoAux l b a ≤ l.length := by
  intro l
  induction l with
  | nil => intro b a; simp [gcoAux]
  | cons x rest ih =>
    intro b a
    rw [gcoAux]
    split
    · have := ih b (a + (if isUtf8Start x then 1 else 0))
      simp only [List.length_cons]
      omega
    · simp

lemma gcoAux_pos (l : List Nat) (b a : Nat) (hne : l ≠ []) (hab : a < b) :
    1 ≤ gcoAux l b a := by
  cases l with
  | nil => exact absurd rfl hne
  | cons x rest => rw [gcoAux, if_pos hab]; omega

lemma charCount_cons (x : Nat) (rest : List Nat) :
    charCount (x :: rest) = (if isUtf8Start x then 1 else 0) + charCount rest := by
  rw [charCount, charCount, List.filter_cons]
  split <;> simp [Nat.add_comm]

lemma gcoAux_lt_length : ∀ (l : List Nat) (b a : Nat), b < a + charCount l →
    gcoAux l b a < l.length ∨ l = [] := by
  intro l
  induction l with
  | nil => intro b a _; right; rfl
  | cons x rest ih =>
    intro b a hcc
    left
    rw [gcoAux]
    by_cases hab : a < b
    · rw [if_pos hab]
      rcases ih b (a + (if isUtf8Start x then 1 else 0))
          (by rw [charCount_cons] at hcc; omega) with h | h
      · simp only [List.length_cons]
        omega
      · subst h
        rw [charCount_cons] at hcc
        simp only [charCount, List.filter_nil, List.length_nil] at hcc
        split at hcc <;> omega
    · rw [if_neg hab]; simp

lemma gco_le_length (text : List Nat) (t : Int) :
    get_char_offset_for_tokens text t ≤ text.length := by
  rw [get_char_offset_for_tokens]
  split
  · omega
  · exact gcoAux_le_length text _ 0

lemma gco_pos (text : List Nat) (t : Int) (hne : text ≠ []) (ht : 0 < t) :
    1 ≤ get_char_offset_for_tokens text t := by
  have hcond : ¬ (text = [] ∨ t ≤ 0) := by push_neg; exact ⟨hne, by omega⟩
  rw [get_char_offset_for_tokens, if_neg hcond]
  exact gcoAux_pos text _ 0 hne (by omega)

lemma gco_lt_length (text : List Nat) (t : Int) (ht : 0 < t)
    (hcc : (4 * t).toNat < charCount text) :
    get_char_offset_for_tokens text t < text.length := by
  have hne : text ≠ [] := by
    intro h
    rw [h] at hcc
    simp [charCount] at hcc
  have hcond : ¬ (text = [] ∨ t ≤ 0) := by push_neg; exact ⟨hne, by omega⟩
  rw [get_char_offset_for_tokens, if_neg hcond]
  rcases gcoAux_lt_length text (4 * t).toNat 0 (by omega) with h | h
  · exact h
  · exact absurd h hne

lemma scan_mem_lt (t m o : Int) (h : o ∈ scanOffsets t m) : o < m := by
  rw [scanOffsets] at h
  have := (mem_rangeFrom _ _ _).1 h
  omega

lemma fgbp_le (text : List Nat) (t m : Int) :
    find_good_break_point text t m ≤ m := by
  by_cases hmt : m ≤ t
  · rw [find_good_break_point, if_pos hmt]
  · rw [find_good_break_point, if_neg hmt]
    cases h1 : (scanOffsets t m).find? (isParaBreak text) with
    | some o => exact (scan_mem_lt t m o (List.mem_of_find?_eq_some h1)).le
    | none =>
      cases h2 : (scanOffsets t m).find? (isSentenceEnd text) with
      | some o => exact (scan_mem_lt t m o (List.mem_of_find?_eq_some h2)).le
      | none =>
        cases h3 : (scanOffsets t m).find? (isWordBreak text) with
        | some o => exact (scan_mem_lt t m o (List.mem_of_find?_eq_some h3)).le
        | none =>
          show (if t < m then t else m) ≤ m
          split <;> omega

lemma fgbp_lt (text : List Nat) (t m : Int) (ht : t < m) :
    find_good_break_point text t m < m := by
  rw [find_good_break_point, if_neg (by omega)]
  cases h1 : (scanOffsets t m).find? (isParaBreak text) with
  | some o => exact scan_mem_lt t m o (List.mem_of_find?_eq_some h1)
  | none =>
    cases h2 : (scanOffsets t m).find? (isSentenceEnd text) with
    | some o => exact scan_mem_lt t m o (List.mem_of_find?_eq_some h2)
    | none =>
      cases h3 : (scanOffsets t m).find? (isWordBreak text) with
      | some o => exact scan_mem_lt t m o (List.mem_of_find?_eq_some h3)
      | none =>
        show (if t < m then t else m) < m
        rw [if_pos ht]
        exact ht

/-! ### Progress of the segmentation loops (C4) -/

lemma endOffset_bounds (text : List Nat) (sizeTokens : Int) (start : Nat)
    (hlt : start < text.length) :
    1 ≤ endOffset text sizeTokens start ∧
      endOffset text sizeTokens start ≤ text.length - start := by
  have hrestlen : (text.drop start).length = text.length - start := List.length_drop start text
  have htarget : get_char_offset_for_tokens (text.drop start) sizeTokens ≤
      text.length - start := by
    have := gco_le_length (text.drop start) sizeTokens
    omega
  rw [endOffset]
  split
  · split
    · omega
    · omega
  · rename_i hpos
    have hle : find_good_break_point (text.drop start)
        ((get_char_offset_for_tokens (text.drop start) sizeTokens : Nat) : Int)
        ((text.length - start : Nat) : Int) ≤ ((text.length - start : Nat) : Int) :=
      fgbp_le _ _ _
    omega

lemma chunkStep_progress (text : List Nat) (cfg : ChunkConfig) (start : Nat)
    (hlt : start < text.length) : start < (chunkStep text cfg start).2 := by
  obtain ⟨h1, h2⟩ := endOffset_bounds text cfg.chunk_size start hlt
  have hskip : ∀ n, n ≤ skipWs text n := by intro n; rw [skipWs]; omega
  have hadv : ∀ s i e, i ≤ advanceToWs s i e := by
    intro s i e; rw [advanceToWs]; omega
  have hchne : (text.drop start).take (endOffset text cfg.chunk_size start) ≠ [] := by
    intro hnil
    have hlen := congrArg List.length hnil
    rw [List.length_take, List.length_drop] at hlen
    simp at hlen
    omega
  rw [chunkStep]
  dsimp only
  refine lt_of_lt_of_le ?_ (hskip _)
  split
  · rename_i hov
    have hov0 : 1 ≤ get_char_offset_for_tokens
        ((text.drop start).take (endOffset text cfg.chunk_size start))
        ((count_tokens ((text.drop start).take (endOffset text cfg.chunk_size start)) : Int) -
          cfg.overlap) := by
      apply gco_pos _ _ hchne
      omega
    have := hadv ((text.drop start).take (endOffset text cfg.chunk_size start))
      (get_char_offset_for_tokens ((text.drop start).take (endOffset text cfg.chunk_size start))
        ((count_tokens ((text.drop start).take (endOffset text cfg.chunk_size start)) : Int) -
          cfg.overlap)) (endOffset text cfg.chunk_size start)
    split <;> omega
  · omega

lemma splitStep_progress (content : List Nat) (maxT : Int) (start : Nat)
    (hlt : start < content.length) : start < (splitStep content maxT start).2 := by
  obtain ⟨h1, h2⟩ := endOffset_bounds content maxT start hlt
  have hskip : ∀ n, n ≤ skipWsSplit content n := by intro n; rw [skipWsSplit]; omega
  rw [splitStep]
  dsimp only
  refine lt_of_lt_of_le ?_ (hskip _)
  omega

lemma chunkLoop_nil_of_ge (text : List Nat) (cfg : ChunkConfig) :
    ∀ (fuel start : Nat), ¬ start < text.length → chunkLoop text cfg fuel start = [] := by
  intro fuel start h
  cases fuel with
  | zero => rfl
  | succ k => rw [chunkLoop, if_neg h]

lemma splitLoop_nil_of_ge (content : List Nat) (maxT : Int) :
    ∀ (fuel start : Nat), ¬ start < content.length → splitLoop content maxT fuel start = [] := by
  intro fuel start h
  cases fuel with
  | zero => rfl
  | succ k => rw [splitLoop, if_neg h]

lemma chunkLoop_fuel_indep (text : List Nat) (cfg : ChunkConfig) :
    ∀ (fuel1 fuel2 start : Nat), text.length - start ≤ fuel1 →
      text.length - start ≤ fuel2 →
      chunkLoop text cfg fuel1 start = chunkLoop text cfg fuel2 start := by
  intro fuel1
  induction fuel1 with
  | zero =>
    intro fuel2 start h1 h2
    have hge : ¬ start < text.length := by omega
    rw [chunkLoop_nil_of_ge text cfg 0 start hge, chunkLoop_nil_of_ge text cfg fuel2 start hge]
  | succ k ih =>
    intro fuel2 start h1 h2
    by_cases hs : start < text.length
    · cases fuel2 with
      | zero => omega
      | succ k2 =>
        rw [chunkLoop, chunkLoop, if_pos hs, if_pos hs]
        have hp := chunkStep_progress text cfg start hs
        have e := ih k2 (chunkStep text cfg start).2 (by omega) (by omega)
        dsimp only
        rw [e]
    · rw [chunkLoop_nil_of_ge text cfg _ start hs, chunkLoop_nil_of_ge text cfg fuel2 start hs]

lemma splitLoop_fuel_indep (content : List Nat) (maxT : Int) :
    ∀ (fuel1 fuel2 start : Nat), content.length - start ≤ fuel1 →
      content.length - start ≤ fuel2 →
      splitLoop content maxT fuel1 start = splitLoop content maxT fuel2 start := by
  intro fuel1
  induction fuel1 with
  | zero =>
    intro fuel2 start h1 h2
    have hge : ¬ start < content.length := by omega
    rw [splitLoop_nil_of_ge content maxT 0 start hge,
      splitLoop_nil_of_ge content maxT fuel2 start hge]
  | succ k ih =>
    intro fuel2 start h1 h2
    by_cases hs : start < content.length
    · cases fuel2 with
      | zero => omega
      | succ k2 =>
        rw [splitLoop, splitLoop, if_pos hs, if_pos hs]
        have hp := splitStep_progress content maxT start hs
        have e := ih k2 (splitStep content maxT start).2 (by omega) (by omega)
        dsimp only
        rw [e]
    · rw [splitLoop_nil_of_ge content maxT _ start hs,
        splitLoop_nil_of_ge content maxT fuel2 start hs]

/-- C4: each iteration of the segmentation loop of `chunk_by_tokens` and of
the sub-chunk loop of the split pass advances the start offset by at least
one byte; consequently both loops terminate — their result is independent
of any fuel bound at least as large as the remaining byte count, and the
wrappers run them with fuel `length` starting at offset 0. -/
theorem segmentation_progress :
    (∀ (text : List Nat) (cfg : ChunkConfig) (start : Nat), start < text.length →
      start + 1 ≤ (chunkStep text cfg start).2) ∧
    (∀ (content : List Nat) (maxT : Int) (start : Nat), start < content.length →
      start + 1 ≤ (splitStep content maxT start).2) ∧
    (∀ (text : List Nat) (cfg : ChunkConfig) (fuel1 fuel2 start : Nat),
      text.length - start ≤ fuel1 → text.length - start ≤ fuel2 →
      chunkLoop text cfg fuel1 start = chunkLoop text cfg fuel2 start) ∧
    (∀ (content : List Nat) (maxT : Int) (fuel1 fuel2 start : Nat),
      content.length - start ≤ fuel1 → content.length - start ≤ fuel2 →
      splitLoop content maxT fuel1 start = splitLoop content maxT fuel2 start) :=
  ⟨fun text cfg start h => chunkStep_progress text cfg start h,
   fun content maxT start h => splitStep_progress content maxT start h,
   fun text cfg => chunkLoop_fuel_indep text cfg,
   fun content maxT => splitLoop_fuel_indep content maxT⟩

/-- Witness for C4 at concrete inputs. -/
theorem segmentation_progress_witness :
    0 + 1 ≤ (chunkStep (strB "abcdef") ⟨ChunkStrategy.token, 1, 0⟩ 0).2 ∧
    0 + 1 ≤ (splitStep (strB "abcdef") 1 0).2 ∧
    chunkLoop (strB "abcdef") ⟨ChunkStrategy.token, 1, 0⟩ 6 0 =
      chunkLoop (strB "abcdef") ⟨ChunkStrategy.token, 1, 0⟩ 10 0 ∧
    splitLoop (strB "abcdef") 1 6 0 = splitLoop (strB "abcdef") 1 10 0 :=
  ⟨segmentation_progress.1 (strB "abcdef") ⟨ChunkStrategy.token, 1, 0⟩ 0 (by decide),
   segmentation_progress.2.1 (strB "abcdef") 1 0 (by decide),
   segmentation_progress.2.2.1 (strB "abcdef") ⟨ChunkStrategy.token, 1, 0⟩ 6 10 0
     (by decide) (by decide),
   segmentation_progress.2.2.2 (strB "abcdef") 1 6 10 0 (by decide) (by decide)⟩

/-! ### The split pass (C6) -/

lemma splitLoop_mem_lt_of_pos (content : List Nat) (maxT : Int) :
    ∀ (fuel start : Nat), 1 ≤ start →
      ∀ s ∈ splitLoop content maxT fuel start, s.length < content.length := by
  intro fuel
  induction fuel with
  | zero => intro start h s hs; simp [splitLoop] at hs
  | succ k ih =>
    intro start h s hs
    rw [splitLoop] at hs
    by_cases hlt : start < content.length
    · rw [if_pos hlt] at hs
      dsimp only at hs
      rcases List.mem_cons.1 hs with rfl | hmem
      · rw [splitStep]
        dsimp only
        rw [List.length_take, List.length_drop]
        omega
      · exact ih _ (by have := splitStep_progress content maxT start hlt; omega) s hmem
    · rw [if_neg hlt] at hs
      simp at hs

lemma count_tokens_nil_of : ∀ content : List Nat, content = [] → count_tokens content = 0 := by
  intro content h
  rw [h]
  rfl

lemma endOffset_lt_of_oversized (content : List Nat) (maxT : Int) (hmax : 1 ≤ maxT)
    (hover : maxT < (count_tokens content : Int)) :
    endOffset content maxT 0 < content.length := by
  have hne : content ≠ [] := by
    intro h
    rw [count_tokens_nil_of content h] at hover
    omega
  have hct : count_tokens content = (charCount content + 3) / 4 := by
    rw [count_tokens, if_neg hne]
  have hcc : (4 * maxT).toNat < charCount content := by
    rw [hct] at hover
    omega
  have htlt : get_char_offset_for_tokens content maxT < content.length :=
    gco_lt_length content maxT (by omega) hcc
  have htpos : 1 ≤ get_char_offset_for_tokens content maxT :=
    gco_pos content maxT hne (by omega)
  rw [endOffset]
  simp only [List.drop_zero]
  split
  · rw [if_pos (by omega)]
    exact htlt
  · rename_i hpos
    have := fgbp_lt content ((get_char_offset_for_tokens content maxT : Nat) : Int)
      ((content.length - 0 : Nat) : Int) (by omega)
    omega

lemma splitChunk_mem (content : List Nat) (maxT : Int) (ctx : Option (List Nat))
    (hmax : 1 ≤ maxT) (hover : maxT < (count_tokens content : Int)) :
    ∀ s ∈ splitChunk content ctx maxT,
      s.heading_context = ctx ∧ s.content.length < content.length := by
  intro s hs
  rw [splitChunk] at hs
  rcases List.mem_map.1 hs with ⟨sub, hsub, rfl⟩
  refine ⟨rfl, ?_⟩
  show sub.length < content.length
  have hne : content ≠ [] := by
    intro h
    rw [count_tokens_nil_of content h] at hover
    omega
  have hlen : 1 ≤ content.length := by
    cases content with
    | nil => exact absurd rfl hne
    | cons a l => simp
  rcases Nat.exists_eq_add_of_le hlen with ⟨k, hk⟩
  rw [hk] at hsub
  rw [show 1 + k = k + 1 by omega] at hsub
  rw [splitLoop, if_pos (by omega)] at hsub
  dsimp only at hsub
  rcases List.mem_cons.1 hsub with rfl | hmem
  · rw [splitStep]
    dsimp only
    rw [List.length_take, List.length_drop]
    have := endOffset_lt_of_oversized content maxT hmax hover
    omega
  · exact splitLoop_mem_lt_of_pos content maxT k _
      (by have := splitStep_progress content maxT 0 (by omega); omega) sub hmem

/-- C6: in the split pass every chunk with `token_count <= max_tokens` is
passed through unchanged and every oversized chunk is replaced, in place,
by its sequence of sub-chunks; each sub-chunk carries the source chunk's
`heading_context`, and (each sub-chunk's content being strictly shorter
than the source content) the original oversized chunk itself never appears
among its sub-chunks. -/
theorem split_pass_spec (chunks : List HybridChunk) (maxT : Int) (hmax : 1 ≤ maxT) :
    split_oversized_chunks chunks maxT = chunks.flatMap (fun c =>
        if (c.token_count : Int) ≤ maxT then [c]
        else splitChunk c.content c.heading_context maxT) ∧
    ∀ c : HybridChunk, maxT < (c.token_count : Int) →
      c.token_count = count_tokens c.content →
      ∀ s ∈ splitChunk c.content c.heading_context maxT,
        s.heading_context = c.heading_context ∧ s.content.length < c.content.length ∧
          s ≠ c := by
  refine ⟨rfl, ?_⟩
  intro c hover htc s hs
  obtain ⟨hctx, hlen⟩ := splitChunk_mem c.content maxT c.heading_context hmax
    (by rw [htc] at hover; exact hover) s hs
  refine ⟨hctx, hlen, ?_⟩
  intro he
  rw [he] at hlen
  omega

/-- Witness for C6 at a concrete input: an oversized chunk of three words
with `max_tokens = 1` splits into three word sub-chunks. -/
theorem split_pass_spec_witness :
    split_oversized_chunks [create_hybrid_chunk (strB "aaaa bbbb cccc") none] 1 =
      ([create_hybrid_chunk (strB "aaaa bbbb cccc") none] : List HybridChunk).flatMap
        (fun c => if (c.token_count : Int) ≤ 1 then [c]
          else splitChunk c.content c.heading_context 1) ∧
    ((create_hybrid_chunk (strB "aaaa") none).heading_context =
        (create_hybrid_chunk (strB "aaaa bbbb cccc") none).heading_context ∧
      (create_hybrid_chunk (strB "aaaa") none).content.length <
        (create_hybrid_chunk (strB "aaaa bbbb cccc") none).content.length ∧
      create_hybrid_chunk (strB "aaaa") none ≠
        create_hybrid_chunk (strB "aaaa bbbb cccc") none) :=
  ⟨(split_pass_spec [create_hybrid_chunk (strB "aaaa bbbb cccc") none] 1 (by decide)).1,
   (split_pass_spec [create_hybrid_chunk (strB "aaaa bbbb cccc") none] 1 (by decide)).2
     (create_hybrid_chunk (strB "aaaa bbbb cccc") none) (by decide) (by decide)
     (create_hybrid_chunk (strB "aaaa") none) (by decide)⟩

/-! ### The merge pass (C3) -/

/-- C3 fails as stated: two adjacent undersized chunks (`"aaaa"` and
`"bbbb"`, one token each, identical absent contexts, sum 2 within
`max_tokens = 400`) do merge, but the merged chunk's `token_count` is 3 —
recomputed over `"aaaa\n\nbbbb"` — not the sum 2 of their token counts. -/
theorem merge_token_sum_counterexample :
    (create_hybrid_chunk (strB "aaaa") none).token_count = 1 ∧
    (create_hybrid_chunk (strB "bbbb") none).token_count = 1 ∧
    (1 : Int) < 20 ∧ (1 : Int) + 1 ≤ 400 ∧
    sameContext none none = true ∧
    merge_undersized_chunks
        [create_hybrid_chunk (strB "aaaa") none, create_hybrid_chunk (strB "bbbb") none]
        20 400 =
      [⟨strB "aaaa" ++ [10, 10] ++ strB "bbbb", 3, none⟩] ∧
    (3 : Nat) ≠ 1 + 1 := by
  refine ⟨by decide, by decide, by decide, by decide, by decide, by decide, by decide⟩

/-- C3 amended: with an undersized pending chunk `p`, the current chunk `c`
is merged into it iff their heading contexts are both absent or both
present and byte-equal AND the sum of their token counts is at most
`max_tokens`; the merged chunk is `p.content ++ "\n\n" ++ c.content` with
its token count *recomputed* over that concatenation (in general not equal
to the sum); otherwise the two chunks stay separate. -/
theorem merge_step_spec (p c : HybridChunk) (minT maxT : Int)
    (hp : (p.token_count : Int) < minT) :
    (merge_undersized_chunks [p, c] minT maxT =
      if sameContext p.heading_context c.heading_context ∧
         (p.token_count : Int) + (c.token_count : Int) ≤ maxT
      then [⟨p.content ++ [10, 10] ++ c.content,
        count_tokens (p.content ++ [10, 10] ++ c.content), p.heading_context⟩]
      else [p, c]) ∧
    ((merge_undersized_chunks [p, c] minT maxT).length = 1 ↔
      (sameContext p.heading_context c.heading_context = true ∧
       (p.token_count : Int) + (c.token_count : Int) ≤ maxT)) := by
  have hstep : merge_undersized_chunks [p, c] minT maxT =
      if sameContext p.heading_context c.heading_context ∧
         (p.token_count : Int) + (c.token_count : Int) ≤ maxT
      then [⟨p.content ++ [10, 10] ++ c.content,
        count_tokens (p.content ++ [10, 10] ++ c.content), p.heading_context⟩]
      else [p, c] := by
    rw [merge_undersized_chunks, mergeGo, if_neg (by omega)]
    by_cases hm : sameContext p.heading_context c.heading_context ∧
        (p.token_count : Int) + (c.token_count : Int) ≤ maxT
    · rw [mergeGo, if_pos hm, if_pos hm, mergeGo]
      rfl
    · rw [mergeGo, if_neg hm, if_neg hm]
      by_cases hc : (minT : Int) ≤ (c.token_count : Int)
      · rw [if_pos hc, mergeGo]
        rfl
      · rw [if_neg hc, mergeGo]
        rfl
  refine ⟨hstep, ?_⟩
  rw [hstep]
  by_cases hm : sameContext p.heading_context c.heading_context ∧
      (p.token_count : Int) + (c.token_count : Int) ≤ maxT
  · rw [if_pos hm]
    simpa using hm
  · rw [if_neg hm]
    constructor
    · intro h
      simp at h
    · intro h
      exact absurd ⟨h.1, h.2⟩ hm

/-- Witness for C3's amended theorem: differing contexts keep two
undersized chunks separate. -/
theorem merge_step_spec_witness :
    merge_undersized_chunks
        [create_hybrid_chunk (strB "aaaa") (some (strB "# A")),
         create_hybrid_chunk (strB "bbbb") (some (strB "# B"))] 20 400 =
      [create_hybrid_chunk (strB "aaaa") (some (strB "# A")),
       create_hybrid_chunk (strB "bbbb") (some (strB "# B"))] := by
  have h := (merge_step_spec (create_hybrid_chunk (strB "aaaa") (some (strB "# A")))
    (create_hybrid_chunk (strB "bbbb") (some (strB "# B"))) 20 400 (by decide)).1
  rw [h, if_neg (by decide)]

/-! ### The heading stack (C5) -/

lemma getD_set_self {α : Type} (d : α) : ∀ (l : List α) (n : Nat) (v : α),
    n < l.length → (l.set n v).getD n d = v := by
  intro l
  induction l with
  | nil => intro n v h; simp at h
  | cons x rest ih =>
    intro n v h
    cases n with
    | zero => rfl
    | succ k =>
      rw [List.set_cons_succ, List.getD_cons_succ]
      exact ih k v (by simpa using h)

lemma getD_set_ne {α : Type} (d : α) : ∀ (l : List α) (n m : Nat) (v : α),
    n ≠ m → (l.set n v).getD m d = l.getD m d := by
  intro l
  induction l with
  | nil => intro n m v h; simp
  | cons x rest ih =>
    intro n m v h
    cases n with
    | zero =>
      cases m with
      | zero => exact absurd rfl h
      | succ j => rfl
    | succ k =>
      cases m with
      | zero => rfl
      | succ j =>
        rw [List.set_cons_succ, List.getD_cons_succ, List.getD_cons_succ]
        exact ih k j v (by omega)

lemma clearFrom_getD (lvl : Nat) : ∀ (stack : List (Option (List Nat))) (i n : Nat),
    (clearFrom lvl stack i).getD n none =
      if lvl ≤ i + n then none else stack.getD n none := by
  intro stack
  induction stack with
  | nil =>
    intro i n
    rw [clearFrom]
    split <;> rfl
  | cons v rest ih =>
    intro i n
    rw [clearFrom]
    cases n with
    | zero =>
      rw [List.getD_cons_zero, List.getD_cons_zero]
      simp only [Nat.add_zero]
    | succ k =>
      rw [List.getD_cons_succ, List.getD_cons_succ, ih (i + 1) k]
      simp only [show i + 1 + k = i + (k + 1) from by omega]

lemma clearFrom_length (lvl : Nat) : ∀ (stack : List (Option (List Nat))) (i : Nat),
    (clearFrom lvl stack i).length = stack.length := by
  intro stack
  induction stack with
  | nil => intro i; rfl
  | cons v rest ih =>
    intro i
    rw [clearFrom, List.length_cons, List.length_cons, ih]

/-- C5: processing a heading at level `L` clears every heading-stack slot
with index `≥ L` before setting slot `L-1` (slots below `L-1` are kept);
the breadcrumb concatenates the non-empty slots low to high with `i+1`
`#`-marks and `" > "` separators; and on the reference input the element
`X` carries context `"# A > ## B"` while the element `Y` after the new
level-1 heading carries context `"# C"`. -/
theorem heading_stack_spec :
    (∀ (stack : List (Option (List Nat))) (lvl i : Nat), lvl ≤ i →
      (clearFrom lvl stack 0).getD i none = none) ∧
    (∀ (stack : List (Option (List Nat))) (lvl i : Nat) (txt : List Nat),
      1 ≤ lvl → lvl ≤ i →
      ((clearFrom lvl stack 0).set (lvl - 1) (some txt)).getD i none = none) ∧
    (∀ (stack : List (Option (List Nat))) (lvl : Nat) (txt : List Nat),
      1 ≤ lvl → lvl ≤ stack.length →
      ((clearFrom lvl stack 0).set (lvl - 1) (some txt)).getD (lvl - 1) none = some txt) ∧
    (∀ (stack : List (Option (List Nat))) (lvl i : Nat) (txt : List Nat), i < lvl - 1 →
      ((clearFrom lvl stack 0).set (lvl - 1) (some txt)).getD i none = stack.getD i none) ∧
    (∀ a b : List Nat, build_heading_context [some a, some b, none, none, none, none] =
      some ([35, 32] ++ a ++ [32, 62, 32, 35, 35, 32] ++ b)) ∧
    parse_markdown_structure (strB "# A\n\n## B\n\nX\n\n# C\n\nY") =
      [⟨MDType.heading, 1, strB "# A", 1, some (strB "# A")⟩,
       ⟨MDType.heading, 2, strB "## B", 1, some (strB "# A > ## B")⟩,
       ⟨MDType.paragraph, 0, strB "X", 1, some (strB "# A > ## B")⟩,
       ⟨MDType.heading, 1, strB "# C", 1, some (strB "# C")⟩,
       ⟨MDType.paragraph, 0, strB "Y", 1, some (strB "# C")⟩] := by
  refine ⟨?_, ?_, ?_, ?_, ?_, by decide⟩
  · intro stack lvl i h
    rw [clearFrom_getD, if_pos (by omega)]
  · intro stack lvl i txt h1 h2
    rw [getD_set_ne none _ (lvl - 1) i _ (by omega), clearFrom_getD, if_pos (by omega)]
  · intro stack lvl txt h1 h2
    exact getD_set_self none _ (lvl - 1) (some txt)
      (by rw [clearFrom_length]; omega)
  · intro stack lvl i txt h
    rw [getD_set_ne none _ (lvl - 1) i _ (by omega), clearFrom_getD, if_neg (by omega)]
  · intro a b
    simp [build_heading_context, bhcGo, List.replicate_succ]

/-- Witness for C5 at a concrete stack: a level-1 heading clears the
level-2 slot and sets slot 0. -/
theorem heading_stack_spec_witness :
    (clearFrom 1 [some (strB "A"), some (strB "B"), none, none, none, none] 0).getD 1 none =
      none ∧
    ((clearFrom 1 [some (strB "A"), some (strB "B"), none, none, none, none] 0).set 0
        (some (strB "C"))).getD 0 none = some (strB "C") :=
  ⟨heading_stack_spec.1 [some (strB "A"), some (strB "B"), none, none, none, none] 1 1
     (by decide),
   heading_stack_spec.2.2.1 [some (strB "A"), some (strB "B"), none, none, none, none] 1
     (strB "C") (by decide) (by decide)⟩

/-! ### End-to-end hybrid chunking (C1) -/

/-- C1 fails as stated: the heading element's own line `"# Title"` becomes
an initial chunk, is merged with the undersized paragraph, and therefore
appears in the chunk content after the context prefix; the output is not
`["[Context: # Title]\n\nShort para."]`. -/
theorem chunk_entry_hybrid_counterexample :
    chunk_text true (strB "# Title\n\nShort para.") ⟨ChunkStrategy.hybrid, 400, 50⟩ ≠
      [strB "[Context: # Title]\n\nShort para."] := by
  decide

/-- C1 amended: the chunk entry point on `"# Title\n\nShort para."` with
the Hybrid strategy, `chunk_size = 400` and `overlap = 50` returns exactly
`["[Context: # Title]\n\n# Title\n\nShort para."]` — the heading line is
part of the merged chunk content, after the context prefix. -/
theorem chunk_entry_hybrid_amended :
    chunk_text true (strB "# Title\n\nShort para.") ⟨ChunkStrategy.hybrid, 400, 50⟩ =
      [strB "[Context: # Title]\n\n# Title\n\nShort para."] := by
  decide

end PGV
